import Mathlib

/-!
Verification of the CodePilot AI server's process-registry core and file
routes, shallowly embedded from the JavaScript source (src/server.js,
src/config.js, the files router and the StorageManager).

Modelling conventions:
- A JS `Map` is an association list `List (Nat × ProcRecord)` with unique
  keys; `Map.set` replaces in place or appends, `Map.delete` filters.
- A child process handle is represented by its numeric pid; the closure
  state captured by the per-process event handlers (the original command
  text and the owning connection) is kept in a separate store `Spawned`.
- Filesystem paths are lists of path components; rendering joins them
  with a separator character, mirroring what `path.join` produces.
- Machine-level concerns (actual signal delivery, stream interleaving)
  are outside the embedding; what is modelled is exactly the registry
  bookkeeping, message emission and control flow of the handlers.
-/

namespace CodePilot

/-- A registry record, from `activeProcesses.set(childProcess.pid, { process, cwd, ws })`.
The process handle itself is represented by the map key (its pid); `ws` is the
owning connection, represented by a numeric connection id. -/
structure ProcRecord where
  cwd : String
  owner : Nat
deriving DecidableEq, Repr

/-- The global `activeProcesses` map: pid keyed association list. -/
abbrev Registry := List (Nat × ProcRecord)

/-- JS `Map.delete pid` (also used for object-key deletion): drop the entry. -/
def regDelete (reg : Registry) (pid : Nat) : Registry :=
  reg.filter (fun e => e.1 != pid)

/-- Generic JS map/object `set`: replace the value at an existing key in place,
otherwise append the new binding at the end. -/
def mapSet {α β : Type} [BEq α] : List (α × β) → α → β → List (α × β)
  | [], k, v => [(k, v)]
  | e :: rest, k, v => if e.1 == k then (k, v) :: rest else e :: mapSet rest k v

/-- Generic JS map/object lookup: first binding for the key. -/
def mapGet {α β : Type} [BEq α] (m : List (α × β)) (k : α) : Option β :=
  (m.find? (fun e => e.1 == k)).map Prod.snd

/-- JS `String.prototype.includes(pat)`: `pat` occurs contiguously in `s`. -/
def containsSubstr (s pat : String) : Bool :=
  decide (pat.data <:+: s.data)

/-- Outbound socket messages, from the JSON frames built in server.js. The
catch-all error frame `{ type: 'error', content }` carries no command, so the
command field of `error` is optional. -/
inductive Msg where
  | output (content : String) (command : String)
  | error (content : String) (command : Option String)
  | close (code : Int) (command : String)
  | commandComplete (command : String) (code : Int) (message : String)
deriving DecidableEq, Repr

/-- The success note hard-coded in the `close` handler's scaffold branch. -/
def crMessage : String :=
  "React app created successfully! You can now start editing the files."

/-- `childProcess.on('close')` handler: delete the pid from `activeProcesses`;
if the original command text contains "create-react-app" send a
`commandComplete` frame with the exit code and the success note, otherwise a
plain `close` frame with the exit code. -/
def handleClose (reg : Registry) (pid : Nat) (command : String) (code : Int) :
    Registry × List Msg :=
  (regDelete reg pid,
    if containsSubstr command "create-react-app" then
      [Msg.commandComplete command code crMessage]
    else
      [Msg.close code command])

/-- `childProcess.on('error')` handler: delete the pid from `activeProcesses`
and send an `error` frame carrying the failure text. -/
def handleErrorEvent (reg : Registry) (pid : Nat) (command errText : String) :
    Registry × List Msg :=
  (regDelete reg pid, [Msg.error errText (some command)])

/-- The platform switch inside `killProcess` (`process.platform === 'win32'`). -/
inductive Platform where
  | win32
  | unixLike
deriving DecidableEq, Repr

/-- The log line produced by `killProcess`'s catch clause. -/
def killLog (pid : Nat) (e : String) : String :=
  "Error killing process " ++ toString pid ++ ": " ++ e

/-- The body of `killProcess` before the try/catch: on win32 it fire-and-forgets
a `taskkill` spawn (which does not throw here), on other platforms it calls
`process.kill(pid, 'SIGTERM')`, whose outcome (`.ok` or a thrown error such as
ESRCH/EPERM) is the `sigResult` argument. -/
def killBody (platform : Platform) (sigResult : Except String Unit) :
    Except String Unit :=
  match platform with
  | Platform.win32 => Except.ok ()
  | Platform.unixLike => sigResult

/-- `killProcess(pid)`: the body wrapped in try/catch. A thrown signal-delivery
error is logged via console.error and swallowed; the function always returns
normally (`.ok` with the log lines it produced). -/
def killProcess (platform : Platform) (pid : Nat) (sigResult : Except String Unit) :
    Except String (List String) :=
  match killBody platform sigResult with
  | Except.ok _ => Except.ok []
  | Except.error e => Except.ok [killLog pid e]

end CodePilot

namespace CodePilot

/-- C6: on process exit the `close` handler removes the registry entry and
sends exactly one completion frame: `commandComplete` (with the exit code and
the success note) when the command text contains "create-react-app",
regardless of the exit code, and a plain `close` frame with the exit code
otherwise. -/
theorem c6_close_handler_completion (reg : Registry) (pid : Nat)
    (command : String) (code : Int) :
    (handleClose reg pid command code).1 = regDelete reg pid ∧
    (handleClose reg pid command code).2.length = 1 ∧
    (containsSubstr command "create-react-app" = true →
      (handleClose reg pid command code).2 =
        [Msg.commandComplete command code crMessage]) ∧
    (containsSubstr command "create-react-app" = false →
      (handleClose reg pid command code).2 = [Msg.close code command]) := by
  unfold handleClose
  refine ⟨rfl, ?_, ?_, ?_⟩
  · by_cases h : containsSubstr command "create-react-app" = true <;>
      simp [h]
  · intro h; simp [h]
  · intro h; simp [h]

/-- Witness for C6: a scaffold command with nonzero exit code 1 still yields
`commandComplete`, and its registry entry is removed. -/
theorem c6_close_handler_completion_witness :
    (handleClose [(9, ⟨"/workspace", 1⟩)] 9 "npx create-react-app my-app" 1).1
      = regDelete [(9, ⟨"/workspace", 1⟩)] 9 ∧
    (handleClose [(9, ⟨"/workspace", 1⟩)] 9 "npx create-react-app my-app" 1).2 =
      [Msg.commandComplete "npx create-react-app my-app" 1 crMessage] := by
  have h := c6_close_handler_completion [(9, ⟨"/workspace", 1⟩)] 9
    "npx create-react-app my-app" 1
  exact ⟨h.1, h.2.2.1 (by decide)⟩

/-- C8: `killProcess` never throws past its boundary: for every platform and
every outcome of the underlying signal delivery it returns normally, and when
the delivery failed the failure is captured as a log line, not re-raised. -/
theorem c8_kill_never_throws (platform : Platform) (pid : Nat)
    (sigResult : Except String Unit) :
    (∃ logs, killProcess platform pid sigResult = Except.ok logs) ∧
    (∀ e, killBody platform sigResult = Except.error e →
      killProcess platform pid sigResult = Except.ok [killLog pid e]) := by
  unfold killProcess
  constructor
  · cases h : killBody platform sigResult <;> exact ⟨_, rfl⟩
  · intro e h; simp [h]

/-- Witness for C8: a failed SIGTERM delivery (process already dead) on a
unix-like platform is swallowed and logged. -/
theorem c8_kill_never_throws_witness :
    (∃ logs, killProcess Platform.unixLike 42 (Except.error "ESRCH")
      = Except.ok logs) ∧
    killProcess Platform.unixLike 42 (Except.error "ESRCH")
      = Except.ok [killLog 42 "ESRCH"] := by
  have h := c8_kill_never_throws Platform.unixLike 42 (Except.error "ESRCH")
  exact ⟨h.1, h.2 "ESRCH" rfl⟩

end CodePilot

namespace CodePilot

/-- The `stop` branch of the message handler: `for (const [pid, process] of
activeProcesses.entries()) { await killProcess(pid); activeProcesses.delete(pid) }`.
The loop iterates the entries present when the message arrived (`snapshot`),
kills each pid and deletes it from the live map; it never consults the owning
connection. Returns the final map and the pids killed, in order. -/
def stopLoop : List (Nat × ProcRecord) → Registry → Registry × List Nat
  | [], live => (live, [])
  | e :: rest, live =>
    let r := stopLoop rest (regDelete live e.1)
    (r.1, e.1 :: r.2)

/-- `stop` handler entry point: iterate over all current entries. -/
def handleStop (reg : Registry) : Registry × List Nat :=
  stopLoop reg reg

/-- The pids of the entries owned by connection `ws`, in registry order. -/
def ownedPids (reg : Registry) (ws : Nat) : List Nat :=
  (reg.filter (fun e => e.2.owner == ws)).map Prod.fst

/-- The `ws.on('close')` loop: `for (const [pid, process] of
activeProcesses.entries()) { if (process.ws === ws) { await killProcess(pid);
activeProcesses.delete(pid) } }`. Iterates the entries present at disconnect
time, kills and deletes exactly those whose record is owned by `ws`. -/
def killOwnedLoop : List (Nat × ProcRecord) → Nat → Registry → Registry × List Nat
  | [], _, live => (live, [])
  | e :: rest, ws, live =>
    if e.2.owner == ws then
      let r := killOwnedLoop rest ws (regDelete live e.1)
      (r.1, e.1 :: r.2)
    else
      killOwnedLoop rest ws live

/-- `ws.on('close')` handler entry point. -/
def handleWsClose (reg : Registry) (ws : Nat) : Registry × List Nat :=
  killOwnedLoop reg ws reg

theorem bne_comm_nat (a b : Nat) : (a != b) = !(b == a) := by
  by_cases h : a = b
  · subst h; simp
  · have h1 : (a == b) = false := by simpa using h
    have h2 : (b == a) = false := by simpa using Ne.symm h
    simp [bne, h1, h2]

theorem stopLoop_char (l : List (Nat × ProcRecord)) :
    ∀ live : Registry,
      stopLoop l live =
        (live.filter (fun e => !(l.map Prod.fst).contains e.1), l.map Prod.fst) := by
  induction l with
  | nil => intro live; simp [stopLoop]
  | cons e rest ih =>
    intro live
    simp only [stopLoop, ih, regDelete, List.filter_filter, List.map_cons]
    refine Prod.ext ?_ rfl
    simp only []
    apply List.filter_congr
    intro x _
    simp [List.contains_cons, bne, Bool.and_comm]

theorem killOwnedLoop_char (l : List (Nat × ProcRecord)) (ws : Nat) :
    ∀ live : Registry,
      killOwnedLoop l ws live =
        (live.filter (fun e => !(ownedPids l ws).contains e.1), ownedPids l ws) := by
  induction l with
  | nil => intro live; simp [killOwnedLoop, ownedPids]
  | cons e rest ih =>
    intro live
    by_cases h : (e.2.owner == ws) = true
    · have hop : ownedPids (e :: rest) ws = e.1 :: ownedPids rest ws := by
        simp [ownedPids, List.filter_cons, h]
      simp only [killOwnedLoop, h, if_true, ih, regDelete, List.filter_filter, hop]
      refine Prod.ext ?_ rfl
      simp only []
      apply List.filter_congr
      intro x _
      by_cases hx : x.1 = e.1 <;>
        simp [List.contains_cons, bne, Bool.and_comm, hx]
    · have hb : (e.2.owner == ws) = false := by simpa using h
      have hop : ownedPids (e :: rest) ws = ownedPids rest ws := by
        simp [ownedPids, List.filter_cons, hb]
      simp [killOwnedLoop, hb, ih, hop]

end CodePilot

namespace CodePilot

/-- Server configuration state read by the message handler: `WORKSPACE_DIR`
(chosen at startup from NODE_ENV) and the caller's environment `process.env`,
modelled as a JS object, i.e. an association list with unique keys. -/
structure Config where
  workspaceDir : String
  procEnv : List (String × String)
deriving DecidableEq, Repr

/-- The argument object handed to `spawn(command, [], { shell: true, cwd,
env: { ...process.env, FORCE_COLOR: '1', npm_config_audit: 'false' } })`. -/
structure SpawnSpec where
  command : String
  shell : Bool
  cwd : String
  env : List (String × String)
deriving DecidableEq, Repr

/-- The `command` branch of `ws.on('message')`: spawn the shell command with
cwd `WORKSPACE_DIR` and the caller's environment extended (object spread) with
FORCE_COLOR=1 and npm_config_audit=false, then store
`{ process, cwd, ws }` in `activeProcesses` under the OS-assigned pid. -/
def handleCommand (cfg : Config) (ws : Nat) (command : String) (pid : Nat)
    (reg : Registry) : SpawnSpec × Registry :=
  let cwd := cfg.workspaceDir
  let spec : SpawnSpec :=
    { command := command
      shell := true
      cwd := cwd
      env := mapSet (mapSet cfg.procEnv "FORCE_COLOR" "1") "npm_config_audit" "false" }
  (spec, mapSet reg pid { cwd := cwd, owner := ws })

theorem mapGet_mapSet_self {α β : Type} [BEq α] [LawfulBEq α]
    (m : List (α × β)) (k : α) (v : β) : mapGet (mapSet m k v) k = some v := by
  induction m with
  | nil => simp [mapSet, mapGet, List.find?]
  | cons e rest ih =>
    by_cases h : (e.1 == k) = true
    · simp [mapSet, mapGet, h, List.find?]
    · have hb : (e.1 == k) = false := by simpa using h
      simpa [mapSet, mapGet, hb, List.find?_cons, List.find?] using ih

theorem mapGet_mapSet_other {α β : Type} [BEq α] [LawfulBEq α]
    (m : List (α × β)) (k k' : α) (v : β) (hne : k' ≠ k) :
    mapGet (mapSet m k v) k' = mapGet m k' := by
  have hkk : (k == k') = false := by simpa using (Ne.symm hne)
  induction m with
  | nil => simp [mapSet, mapGet, List.find?, hkk]
  | cons e rest ih =>
    by_cases h : (e.1 == k) = true
    · have he : e.1 = k := by simpa using h
      have he' : (e.1 == k') = false := by
        subst he; exact hkk
      simp [mapSet, mapGet, h, List.find?_cons, he', hkk]
    · have hb : (e.1 == k) = false := by simpa using h
      by_cases h2 : (e.1 == k') = true
      · simp [mapSet, mapGet, hb, List.find?_cons, h2]
      · have hb2 : (e.1 == k') = false := by simpa using h2
        simpa [mapSet, mapGet, hb, List.find?_cons, hb2] using ih

end CodePilot

namespace CodePilot

/-- C9: for every `command` message with a non-empty shell command string the
spawned process runs with shell enabled, its working directory is the
workspace root, its environment is the caller's environment with the forced
color flag and the disabled npm audit flag added (all other variables
unchanged), and the registry gains an entry under the OS-assigned pid whose
record holds that working directory and the receiving connection as owner. -/
theorem c9_command_spawn (cfg : Config) (ws : Nat) (command : String)
    (pid : Nat) (reg : Registry) (hne : command ≠ "") :
    (handleCommand cfg ws command pid reg).1.command = command ∧
    (handleCommand cfg ws command pid reg).1.shell = true ∧
    (handleCommand cfg ws command pid reg).1.cwd = cfg.workspaceDir ∧
    mapGet (handleCommand cfg ws command pid reg).1.env "FORCE_COLOR"
      = some "1" ∧
    mapGet (handleCommand cfg ws command pid reg).1.env "npm_config_audit"
      = some "false" ∧
    (∀ k, k ≠ "FORCE_COLOR" → k ≠ "npm_config_audit" →
      mapGet (handleCommand cfg ws command pid reg).1.env k
        = mapGet cfg.procEnv k) ∧
    mapGet (handleCommand cfg ws command pid reg).2 pid
      = some { cwd := cfg.workspaceDir, owner := ws } := by
  refine ⟨rfl, rfl, rfl, ?_, ?_, ?_, ?_⟩
  · show mapGet (mapSet (mapSet cfg.procEnv "FORCE_COLOR" "1")
      "npm_config_audit" "false") "FORCE_COLOR" = some "1"
    rw [mapGet_mapSet_other _ _ _ _ (by decide),
      mapGet_mapSet_self]
  · exact mapGet_mapSet_self _ _ _
  · intro k hk1 hk2
    show mapGet (mapSet (mapSet cfg.procEnv "FORCE_COLOR" "1")
      "npm_config_audit" "false") k = mapGet cfg.procEnv k
    rw [mapGet_mapSet_other _ _ _ _ hk2, mapGet_mapSet_other _ _ _ _ hk1]
  · exact mapGet_mapSet_self _ _ _

/-- Witness for C9: a concrete spawn of `npm start` on connection 3 with a
one-variable caller environment. -/
theorem c9_command_spawn_witness :
    ("npm start" : String) ≠ "" ∧
    mapGet (handleCommand ⟨"/workspace", [("PATH", "/usr/bin")]⟩ 3 "npm start" 77 []).1.env
      "FORCE_COLOR" = some "1" ∧
    mapGet (handleCommand ⟨"/workspace", [("PATH", "/usr/bin")]⟩ 3 "npm start" 77 []).1.env
      "PATH" = some "/usr/bin" ∧
    mapGet (handleCommand ⟨"/workspace", [("PATH", "/usr/bin")]⟩ 3 "npm start" 77 []).2 77
      = some { cwd := "/workspace", owner := 3 } := by
  have h := c9_command_spawn ⟨"/workspace", [("PATH", "/usr/bin")]⟩ 3 "npm start" 77 []
    (by decide)
  exact ⟨by decide, h.2.2.2.1,
    by simpa using h.2.2.2.2.2.1 "PATH" (by decide) (by decide),
    h.2.2.2.2.2.2⟩

end CodePilot

namespace CodePilot

/-- An inbound socket frame after the `JSON.parse(message)` attempt.
`nonJson` carries the message of the exception JSON.parse threw; `json`
carries the parsed object's `type` field and its optional `command` field. -/
inductive Frame where
  | nonJson (parseErr : String)
  | json (type : String) (command : Option String)
deriving DecidableEq, Repr

/-- Result of one `ws.on('message')` invocation: the new registry, the frames
sent on this connection by the handler itself, the pids it signalled, and
whether the connection is still open afterwards (the handler never closes it). -/
structure MsgResult where
  reg : Registry
  sent : List Msg
  kills : List Nat
  connOpen : Bool
deriving DecidableEq, Repr

/-- The try-block body of `ws.on('message')`. `Except.error` is a thrown JS
exception: the JSON.parse failure for a non-JSON frame, or the TypeError
`spawn(undefined, ...)` raises when a `command` frame has no command string.
A frame whose `type` is neither "command" nor "stop" falls through both
branches and does nothing. -/
def handleMessageBody (cfg : Config) (ws : Nat) (pid : Nat) (reg : Registry) :
    Frame → Except String (Registry × List Msg × List Nat)
  | Frame.nonJson e => Except.error e
  | Frame.json t cmd =>
    if t = "command" then
      match cmd with
      | none => Except.error "The \x22command\x22 argument must be of type string."
      | some c => Except.ok ((handleCommand cfg ws c pid reg).2, [], [])
    else if t = "stop" then
      Except.ok ((handleStop reg).1, [], (handleStop reg).2)
    else
      Except.ok (reg, [], [])

/-- `ws.on('message')` with its surrounding try/catch: a thrown error is
logged and answered with a single `error` frame (no command field); the
connection is never closed and the loop always returns normally. -/
def handleMessage (cfg : Config) (ws : Nat) (pid : Nat) (reg : Registry)
    (fr : Frame) : MsgResult :=
  match handleMessageBody cfg ws pid reg fr with
  | Except.ok (r, ms, ks) => ⟨r, ms, ks, true⟩
  | Except.error e => ⟨reg, [Msg.error e none], [], true⟩

end CodePilot

namespace CodePilot

/-- C2 counterexample: the `stop` branch ignores ownership. A stop received on
connection 1, with the registry holding a single process owned by connection
2, kills pid 5 and empties the registry, so it is false that processes owned
by other connections remain registered and running. -/
theorem c2_stop_ignores_ownership :
    (handleMessage ⟨"/workspace", []⟩ 1 0 [(5, ⟨"/workspace", 2⟩)]
        (Frame.json "stop" none)).kills = [5] ∧
    (handleMessage ⟨"/workspace", []⟩ 1 0 [(5, ⟨"/workspace", 2⟩)]
        (Frame.json "stop" none)).reg = [] ∧
    (ProcRecord.mk "/workspace" 2).owner ≠ 1 := by
  refine ⟨?_, ?_, by decide⟩ <;>
    simp [handleMessage, handleMessageBody, handleStop, stopLoop, regDelete]

/-- C2 amended: receiving a `stop` message terminates every registered process
regardless of which connection owns it, removes every registry entry, and the
stop branch itself sends no messages and raises no error (the connection stays
open); in particular with an empty registry it is a complete no-op. -/
theorem c2_stop_kills_everything (cfg : Config) (ws : Nat) (pid : Nat)
    (reg : Registry) :
    handleMessage cfg ws pid reg (Frame.json "stop" none)
      = ⟨[], [], reg.map Prod.fst, true⟩ := by
  have hchar := stopLoop_char reg reg
  have hempty : (handleStop reg).1 = [] := by
    rw [handleStop, hchar]
    simp only [Prod.fst]
    rw [List.filter_eq_nil_iff]
    intro e he
    have hm : e.1 ∈ reg.map Prod.fst := List.mem_map.mpr ⟨e, he, rfl⟩
    simp [List.elem_eq_mem, hm]
  have hkills : (handleStop reg).2 = reg.map Prod.fst := by
    rw [handleStop, hchar]
  simp [handleMessage, handleMessageBody, hempty, hkills]

end CodePilot

namespace CodePilot

/-- C3: when connection `ws` closes, assuming the JS-Map invariant that
registry keys are unique, every process owned by `ws` is signalled and its
entry removed, every process owned by another connection is neither signalled
nor removed, and the pids signalled are exactly the ones owned by `ws`. -/
theorem c3_disconnect_kills_only_own (reg : Registry) (ws : Nat)
    (hnd : (reg.map Prod.fst).Nodup) :
    (∀ e ∈ reg, e.2.owner = ws →
      e.1 ∈ (handleWsClose reg ws).2 ∧
      e.1 ∉ (handleWsClose reg ws).1.map Prod.fst) ∧
    (∀ e ∈ reg, e.2.owner ≠ ws →
      e ∈ (handleWsClose reg ws).1 ∧ e.1 ∉ (handleWsClose reg ws).2) ∧
    (handleWsClose reg ws).2 = ownedPids reg ws := by
  have hchar := killOwnedLoop_char reg ws reg
  rw [handleWsClose] at *
  rw [hchar]
  have hinj : ∀ x ∈ reg, ∀ y ∈ reg, x.1 = y.1 → x = y :=
    List.inj_on_of_nodup_map hnd
  refine ⟨?_, ?_, rfl⟩
  · intro e he hown
    have hmem : e.1 ∈ ownedPids reg ws := by
      refine List.mem_map.mpr ⟨e, ?_, rfl⟩
      refine List.mem_filter.mpr ⟨he, by simpa using hown⟩
    refine ⟨hmem, ?_⟩
    intro hcontra
    rcases List.mem_map.mp hcontra with ⟨e', he', hfst⟩
    have he'f := List.mem_filter.mp he'
    have : (ownedPids reg ws).contains e'.1 = true := by
      simpa [List.elem_eq_mem, hfst] using hmem
    rw [this] at he'f
    simpa using he'f.2
  · intro e he hown
    have hnotown : e.1 ∉ ownedPids reg ws := by
      intro hmem
      rcases List.mem_map.mp hmem with ⟨e', he', hfst⟩
      have he'f := List.mem_filter.mp he'
      have heq : e' = e := hinj e' he'f.1 e he hfst
      subst heq
      exact hown (by simpa using he'f.2)
    constructor
    · refine List.mem_filter.mpr ⟨he, ?_⟩
      simpa [List.elem_eq_mem] using hnotown
    · exact hnotown

/-- Witness for C3: a registry with one process owned by connection 1 and one
owned by connection 2; closing connection 1 kills exactly pid 10 and leaves
pid 20 registered. -/
theorem c3_disconnect_kills_only_own_witness :
    ((([(10, ⟨"/workspace", 1⟩), (20, ⟨"/workspace", 2⟩)] : Registry).map
      Prod.fst).Nodup) ∧
    (10 ∈ (handleWsClose [(10, ⟨"/workspace", 1⟩), (20, ⟨"/workspace", 2⟩)] 1).2 ∧
      10 ∉ ((handleWsClose [(10, ⟨"/workspace", 1⟩), (20, ⟨"/workspace", 2⟩)] 1).1.map
        Prod.fst)) ∧
    ((20, (⟨"/workspace", 2⟩ : ProcRecord)) ∈
        (handleWsClose [(10, ⟨"/workspace", 1⟩), (20, ⟨"/workspace", 2⟩)] 1).1 ∧
      20 ∉ (handleWsClose [(10, ⟨"/workspace", 1⟩), (20, ⟨"/workspace", 2⟩)] 1).2) := by
  have hnd : (([(10, ⟨"/workspace", 1⟩), (20, ⟨"/workspace", 2⟩)] : Registry).map
      Prod.fst).Nodup := by decide
  have h := c3_disconnect_kills_only_own
    [(10, ⟨"/workspace", 1⟩), (20, ⟨"/workspace", 2⟩)] 1 hnd
  refine ⟨hnd, ?_, ?_⟩
  · exact h.1 (10, ⟨"/workspace", 1⟩) (by simp) rfl
  · exact h.2.1 (20, ⟨"/workspace", 2⟩) (by simp) (by decide)

end CodePilot

namespace CodePilot

/-- C7 counterexample: a syntactically valid JSON frame of the wrong shape —
`type` is "ping", neither "command" nor "stop" — falls through both branches
of the dispatcher and produces no message at all, so it is false that every
malformed frame (non-JSON text or wrong shape) is answered with exactly one
`error` message. -/
theorem c7_wrong_shape_is_silent :
    (handleMessage ⟨"/workspace", []⟩ 1 0 [] (Frame.json "ping" none)).sent = []
    ∧ ¬ ((handleMessage ⟨"/workspace", []⟩ 1 0 []
        (Frame.json "ping" none)).sent.length = 1) := by
  refine ⟨?_, ?_⟩ <;> simp [handleMessage, handleMessageBody]

/-- C7 amended: every non-JSON inbound frame is answered with exactly one
`error` message and leaves the registry untouched; a valid-JSON frame of
unrecognized shape is silently ignored; the handler never closes the
connection on any frame, and after a malformed frame the connection remains
usable: a subsequent valid `command` message behaves exactly as it would have
without the malformed frame. -/
theorem c7_malformed_frame_handling (cfg : Config) (ws : Nat) (pid : Nat)
    (reg : Registry) (e : String) :
    handleMessage cfg ws pid reg (Frame.nonJson e)
      = ⟨reg, [Msg.error e none], [], true⟩ ∧
    (∀ t c, t ≠ "command" → t ≠ "stop" →
      handleMessage cfg ws pid reg (Frame.json t c) = ⟨reg, [], [], true⟩) ∧
    (∀ fr, (handleMessage cfg ws pid reg fr).connOpen = true) ∧
    (∀ c pid2,
      handleMessage cfg ws pid2
          (handleMessage cfg ws pid reg (Frame.nonJson e)).reg
          (Frame.json "command" (some c))
        = handleMessage cfg ws pid2 reg (Frame.json "command" (some c))) := by
  refine ⟨rfl, ?_, ?_, ?_⟩
  · intro t c ht hs
    simp [handleMessage, handleMessageBody, ht, hs]
  · intro fr
    cases fr with
    | nonJson e => rfl
    | json t c =>
      simp only [handleMessage, handleMessageBody]
      by_cases ht : t = "command"
      · cases c <;> simp [ht]
      · by_cases hs : t = "stop" <;> simp [ht, hs]
  · intro c pid2; rfl

/-- Witness for C7 amended: concrete malformed text yields one error frame;
the concrete wrong-shape frame `{"type":"ping"}` yields nothing; a `command`
frame right after the malformed one spawns normally. -/
theorem c7_malformed_frame_handling_witness :
    handleMessage ⟨"/workspace", []⟩ 4 0 [] (Frame.nonJson "Unexpected token h")
      = ⟨[], [Msg.error "Unexpected token h" none], [], true⟩ ∧
    handleMessage ⟨"/workspace", []⟩ 4 0 [] (Frame.json "ping" (some "x"))
      = ⟨[], [], [], true⟩ ∧
    handleMessage ⟨"/workspace", []⟩ 4 8
        (handleMessage ⟨"/workspace", []⟩ 4 0 [] (Frame.nonJson "Unexpected token h")).reg
        (Frame.json "command" (some "ls"))
      = handleMessage ⟨"/workspace", []⟩ 4 8 [] (Frame.json "command" (some "ls")) := by
  have h := c7_malformed_frame_handling ⟨"/workspace", []⟩ 4 0 [] "Unexpected token h"
  exact ⟨h.1, h.2.1 "ping" (some "x") (by decide) (by decide), h.2.2.2 "ls" 8⟩

end CodePilot

namespace CodePilot

theorem mapSet_keys {α β : Type} [BEq α] [LawfulBEq α]
    (m : List (α × β)) (k : α) (v : β) (x : α)
    (hx : x ∈ (mapSet m k v).map Prod.fst) :
    x = k ∨ x ∈ m.map Prod.fst := by
  induction m with
  | nil => simpa [mapSet] using hx
  | cons e rest ih =>
    by_cases h : (e.1 == k) = true
    · simp only [mapSet, h, if_true] at hx
      rcases List.mem_map.mp hx with ⟨y, hy, hfst⟩
      rcases List.mem_cons.mp hy with h1 | h1
      · left; rw [← hfst, h1]
      · right; exact List.mem_map.mpr ⟨y, List.mem_cons_of_mem _ h1, hfst⟩
    · have hb : (e.1 == k) = false := by simpa using h
      simp only [mapSet, hb, Bool.false_eq_true, if_false, List.map_cons,
        List.mem_cons] at hx
      rcases hx with h1 | h1
      · right; simp [h1]
      · rcases ih h1 with h2 | h2
        · exact Or.inl h2
        · right; exact List.mem_cons.mpr (Or.inr h2)

theorem regDelete_keys (reg : Registry) (pid x : Nat)
    (hx : x ∈ (regDelete reg pid).map Prod.fst) :
    x ∈ reg.map Prod.fst ∧ x ≠ pid := by
  rcases List.mem_map.mp hx with ⟨e, he, hfst⟩
  have hef := List.mem_filter.mp he
  constructor
  · exact List.mem_map.mpr ⟨e, hef.1, hfst⟩
  · have hb : (e.1 != pid) = true := hef.2
    rw [← hfst]
    simpa using hb

theorem handleStop_fst_nil (reg : Registry) : (handleStop reg).1 = [] := by
  rw [handleStop, stopLoop_char]
  simp only []
  rw [List.filter_eq_nil_iff]
  intro e he
  have hm : e.1 ∈ reg.map Prod.fst := List.mem_map.mpr ⟨e, he, rfl⟩
  simp [List.elem_eq_mem, hm]

theorem handleWsClose_fst_sub (reg : Registry) (ws : Nat) (x : Nat)
    (hx : x ∈ (handleWsClose reg ws).1.map Prod.fst) : x ∈ reg.map Prod.fst := by
  rw [handleWsClose, killOwnedLoop_char] at hx
  simp only [] at hx
  rcases List.mem_map.mp hx with ⟨e, he, hfst⟩
  exact List.mem_map.mpr ⟨e, (List.mem_filter.mp he).1, hfst⟩

/-- The closure state captured by the handlers attached to one spawned child:
the original command text and the owning connection. It lives as long as the
process object, independently of the registry entry. -/
structure Spawned where
  command : String
  owner : Nat
deriving DecidableEq, Repr

/-- Global server state for the event-loop semantics: the registry, the
closure store of every child ever spawned, the ghost list of pids whose
terminal event (close or error) has already been delivered, and the log of
frames sent, tagged with the receiving connection. -/
structure SessionState where
  reg : Registry
  procs : List (Nat × Spawned)
  dead : List Nat
  sent : List (Nat × Msg)
deriving DecidableEq, Repr

/-- The events the event loop delivers to the handlers in server.js. A
directory-deletion request only signals matching processes (via killProcess);
the registry removal it induces arrives later as the dying child's own
`procClose` event, which is why `deleteDir` itself does not touch the
registry. -/
inductive Ev where
  | message (ws pid : Nat) (fr : Frame)
  | procClose (pid : Nat) (code : Int)
  | procError (pid : Nat) (errText : String)
  | wsClose (ws : Nat)
  | deleteDir (dirPath : String)
deriving DecidableEq, Repr

/-- Whether a frame reaches the spawn call (a `command` frame carrying a
command string). -/
def spawnsChild : Frame → Bool
  | Frame.json t (some _) => t == "command"
  | _ => false

/-- The command string of a spawning frame. -/
def frCommand : Frame → String
  | Frame.json _ (some c) => c
  | _ => ""

/-- One event-loop step: dispatch the event to the corresponding handler from
server.js and merge its effects into the global state. -/
def step (cfg : Config) (s : SessionState) : Ev → SessionState
  | Ev.message ws pid fr =>
    let r := handleMessage cfg ws pid s.reg fr
    { s with
      reg := r.reg
      procs := if spawnsChild fr then mapSet s.procs pid ⟨frCommand fr, ws⟩
               else s.procs
      sent := s.sent ++ r.sent.map (fun m => (ws, m)) }
  | Ev.procClose pid code =>
    match mapGet s.procs pid with
    | some sp =>
      let r := handleClose s.reg pid sp.command code
      { s with
        reg := r.1
        dead := pid :: s.dead
        sent := s.sent ++ r.2.map (fun m => (sp.owner, m)) }
    | none => s
  | Ev.procError pid errText =>
    match mapGet s.procs pid with
    | some sp =>
      let r := handleErrorEvent s.reg pid sp.command errText
      { s with
        reg := r.1
        dead := pid :: s.dead
        sent := s.sent ++ r.2.map (fun m => (sp.owner, m)) }
    | none => s
  | Ev.wsClose ws =>
    { s with reg := (handleWsClose s.reg ws).1 }
  | Ev.deleteDir _ => s

/-- The registry invariant: no entry refers to a process whose terminal event
has been delivered (a dead process). -/
def NoStale (s : SessionState) : Prop :=
  ∀ p ∈ s.dead, p ∉ s.reg.map Prod.fst

/-- Well-formedness of an event against a state: the OS never hands a spawn
the pid of an already-reaped process. -/
def evOk (s : SessionState) : Ev → Prop
  | Ev.message _ pid fr => spawnsChild fr = true → pid ∉ s.dead
  | _ => True

end CodePilot

namespace CodePilot

/-- C1: the no-stale-entry invariant is preserved by every event-loop step:
on each terminal transition (natural exit and kill-induced exit via
`procClose`, spawn failure via `procError`) the handler removes the registry
entry, explicit stop and owner disconnect remove the entries of the processes
they signal, and a directory deletion's kills are reaped through later
`procClose` events — so on no exit path does a registry entry survive the
death of its process. -/
theorem c1_no_stale_entries (cfg : Config) (s : SessionState) (ev : Ev)
    (hInv : NoStale s) (hOk : evOk s ev) : NoStale (step cfg s ev) := by
  cases ev with
  | message ws pid fr =>
    intro p hp
    simp only [step] at hp ⊢
    cases fr with
    | nonJson e =>
      simpa [handleMessage, handleMessageBody] using hInv p hp
    | json t c =>
      by_cases ht : t = "command"
      · cases c with
        | none =>
          simpa [handleMessage, handleMessageBody, ht] using hInv p hp
        | some cm =>
          have hpid : pid ∉ s.dead := hOk (by simp [spawnsChild, ht])
          have hpne : p ≠ pid := fun h => hpid (h ▸ hp)
          have hreg : p ∉ s.reg.map Prod.fst := hInv p hp
          simp only [handleMessage, handleMessageBody, ht, if_pos,
            handleCommand]
          intro hmem
          rcases mapSet_keys _ _ _ _ hmem with h | h
          · exact hpne h
          · exact hreg h
      · by_cases hs : t = "stop"
        · rw [hs]
          simp [handleMessage, handleMessageBody, handleStop_fst_nil]
        · simpa [handleMessage, handleMessageBody, ht, hs] using hInv p hp
  | procClose pid code =>
    simp only [step]
    cases hm : mapGet s.procs pid with
    | none => exact hInv
    | some sp =>
      intro p hp
      have hp' : p ∈ pid :: s.dead := hp
      show p ∉ (regDelete s.reg pid).map Prod.fst
      rcases List.mem_cons.mp hp' with rfl | hpd
      · intro hc
        exact (regDelete_keys _ _ _ hc).2 rfl
      · intro hc
        exact hInv p hpd (regDelete_keys _ _ _ hc).1
  | procError pid errText =>
    simp only [step]
    cases hm : mapGet s.procs pid with
    | none => exact hInv
    | some sp =>
      intro p hp
      have hp' : p ∈ pid :: s.dead := hp
      show p ∉ (regDelete s.reg pid).map Prod.fst
      rcases List.mem_cons.mp hp' with rfl | hpd
      · intro hc
        exact (regDelete_keys _ _ _ hc).2 rfl
      · intro hc
        exact hInv p hpd (regDelete_keys _ _ _ hc).1
  | wsClose ws =>
    intro p hp
    simp only [step] at hp ⊢
    intro hc
    exact hInv p hp (handleWsClose_fst_sub _ _ _ hc)
  | deleteDir d =>
    intro p hp
    simpa [step] using hInv p hp

/-- Witness for C1: a state with one live registered process (pid 3) and one
already-reaped pid 9 satisfies the invariant; delivering pid 3's close event
preserves it. -/
theorem c1_no_stale_entries_witness :
    NoStale ⟨[(3, ⟨"/workspace", 1⟩)], [(3, ⟨"ls", 1⟩)], [9], []⟩ ∧
    evOk ⟨[(3, ⟨"/workspace", 1⟩)], [(3, ⟨"ls", 1⟩)], [9], []⟩
      (Ev.procClose 3 0) ∧
    NoStale (step ⟨"/workspace", []⟩
      ⟨[(3, ⟨"/workspace", 1⟩)], [(3, ⟨"ls", 1⟩)], [9], []⟩ (Ev.procClose 3 0)) := by
  have h1 : NoStale ⟨[(3, ⟨"/workspace", 1⟩)], [(3, ⟨"ls", 1⟩)], [9], []⟩ := by
    intro p hp
    rcases List.mem_singleton.mp hp with rfl
    decide
  have h2 : evOk ⟨[(3, ⟨"/workspace", 1⟩)], [(3, ⟨"ls", 1⟩)], [9], []⟩
      (Ev.procClose 3 0) := trivial
  exact ⟨h1, h2, c1_no_stale_entries ⟨"/workspace", []⟩ _ _ h1 h2⟩

end CodePilot

namespace CodePilot

/-- The `.pid` property access the `deleteDirectory` loop performs on a
stored registry record: the record literal is `{ process, cwd, ws }`, which
has no `pid` field (the child's pid sits one level deeper, at
`.process.pid`), so in JS the access yields `undefined`, modelled as
`none`. -/
def ProcRecord.pidProp (_ : ProcRecord) : Option Nat := none

/-- The externally visible operations `deleteDirectory` performs, in program
order: killProcess calls with the argument they receive (`none` is a
`killProcess(undefined)` call, whose `process.kill(undefined, 'SIGTERM')`
invalid-argument throw is swallowed by killProcess's catch, delivering no
signal), the `setTimeout` grace wait (in milliseconds), and the recursive
`fs.rm`. -/
inductive Action where
  | kill (arg : Option Nat)
  | wait (ms : Nat)
  | rm (path : String)
deriving DecidableEq, Repr

/-- `deleteDirectory(dirPath)` from server.js, as its sequence of operations:
iterate a snapshot of `activeProcesses.values()` and, for every record whose
`cwd` contains `dirPath` as a substring (`process.cwd.includes(dirPath)`),
call `killProcess(process.pid)` — where `process` is the stored
`{ process, cwd, ws }` record, so the argument read is its nonexistent
`.pid` field — then `await setTimeout(1000)`, then `fs.rm(dirPath,
{ recursive: true, force: true })`. -/
def deleteDirectory (reg : Registry) (dirPath : String) : List Action :=
  (((reg.map Prod.snd).filter (fun r => containsSubstr r.cwd dirPath)).map
      (fun r => Action.kill r.pidProp))
    ++ [Action.wait 1000, Action.rm dirPath]

/-- The error propagation of `deleteDirectory`: the catch clause logs the
`fs.rm` failure and rethrows it, so the outcome equals the `fs.rm` outcome. -/
def deleteDirectoryResult (rmResult : Except String Unit) : Except String Unit :=
  match rmResult with
  | Except.ok _ => Except.ok ()
  | Except.error e => Except.error e

/-- The registry of the section-8 scenario: one process (`sleep 100`, pid 7)
whose working directory is `workspace/a`. -/
def scenarioReg : Registry :=
  [(7, ⟨"workspace/a", 1⟩)]

end CodePilot

namespace CodePilot

/-- C5 evidence: in the section-8 scenario (a `sleep 100` process registered
under map key pid 7 with cwd `workspace/a`), deleting `workspace/a` selects
the record by its cwd, but the killProcess call receives the record's
nonexistent `.pid` field — undefined — so the operations performed are a
`killProcess(undefined)` call (which delivers no signal), the grace wait and
the removal; no kill carrying the real pid 7, nor any real pid, is ever
issued on this code path, the process survives, and its registry entry
remains. -/
theorem c5_delete_kill_gets_undefined :
    deleteDirectory scenarioReg "workspace/a"
      = [Action.kill none, Action.wait 1000, Action.rm "workspace/a"] ∧
    Action.kill (some 7) ∉ deleteDirectory scenarioReg "workspace/a" ∧
    (∀ p : Nat, Action.kill (some p) ∉ deleteDirectory scenarioReg "workspace/a") ∧
    ProcRecord.pidProp ⟨"workspace/a", 1⟩ = none := by
  refine ⟨by decide, by decide, ?_, rfl⟩
  intro p hp
  have h1 : deleteDirectory scenarioReg "workspace/a"
      = [Action.kill none, Action.wait 1000, Action.rm "workspace/a"] := by
    decide
  rw [h1] at hp
  simp at hp

end CodePilot

namespace CodePilot

/-- One step of the path normalization `path.join` applies: `.` and empty
segments vanish, `..` pops the last segment (staying put at the root), any
other segment is appended. -/
def resolveStep (acc : List String) (c : String) : List String :=
  if c = "." ∨ c = "" then acc
  else if c = ".." then acc.dropLast
  else acc ++ [c]

/-- `path.join(base, rel)` on an absolute base: append the relative segments
and normalize. -/
def joinResolve (base rel : List String) : List String :=
  rel.foldl resolveStep base

/-- Render a relative path: segments joined with the separator character. -/
def renderRel (sep : Char) : List String → List Char
  | [] => []
  | [c] => c.data
  | c :: rest => c.data ++ sep :: renderRel sep rest

/-- Render an absolute posix path: a leading slash then the joined segments. -/
def renderAbs (comps : List String) : List Char :=
  '/' :: renderRel '/' comps

/-- The two regex replaces of the delete route,
`path.replace(/^\/+/, '').replace(/^workspace\/+/, '')`, on the
segment-split request path: drop leading empty segments (leading slashes),
then drop a leading `workspace` segment when a slash follows it. -/
def cleanPath (p : List String) : List String :=
  match p.dropWhile (fun c => c == "") with
  | "workspace" :: rest => if rest.isEmpty then ["workspace"] else rest
  | q => q

/-- Outcome of the delete route: a 403 rejection or a filesystem removal of
the resolved target. -/
inductive DeleteOutcome where
  | forbidden
  | fsDelete (target : List String)
deriving DecidableEq, Repr

/-- The `app.delete('/api/files/delete')` handler of config.js: clean the
request path, `join` it onto `WORKSPACE_DIR`, reject with 403 when the
resolved string does not start with the `WORKSPACE_DIR` string
(`targetPath.startsWith(WORKSPACE_DIR)`), otherwise call `deleteDirectory`
on the target. -/
def deleteRoute (wsdir : List String) (reqPath : List String) : DeleteOutcome :=
  let cp := cleanPath reqPath
  let target := joinResolve wsdir cp
  if (renderAbs wsdir).isPrefixOf (renderAbs target) then
    DeleteOutcome.fsDelete target
  else
    DeleteOutcome.forbidden

/-- `StorageManager.deleteFile(path)` in the local branch: join the request
path onto the workspace directory and `fs.unlink` it — there is no
containment check of any kind on this code path. -/
def storageDeleteFile (wsdir : List String) (reqPath : List String) :
    List String :=
  joinResolve wsdir reqPath

end CodePilot

namespace CodePilot

/-- C4 evidence: with workspace root `/app/workspace`, the delete request
`../workspace2/x` resolves to `/app/workspace2/x` — outside the workspace
root (the root's segments are not a prefix of the target's) — yet the
string-prefix guard accepts it and the filesystem removal is invoked; and
`storage.deleteFile('../../etc/passwd')` reaches `fs.unlink` on `/etc/passwd`
with no check at all. So a delete whose resolved target lies outside the
workspace root does not always fail before the filesystem call. -/
theorem c4_escape_reaches_filesystem :
    deleteRoute ["app", "workspace"] ["..", "workspace2", "x"]
      = DeleteOutcome.fsDelete ["app", "workspace2", "x"] ∧
    (["app", "workspace"].isPrefixOf ["app", "workspace2", "x"]) = false ∧
    storageDeleteFile ["app", "workspace"] ["..", "..", "etc", "passwd"]
      = ["etc", "passwd"] := by
  refine ⟨by decide, by decide, by decide⟩

end CodePilot

namespace CodePilot

/-- Entry type as produced by `getFileType` ('directory' / 'file'). -/
inductive FType where
  | directory
  | file
deriving DecidableEq, Repr

/-- The `fs.stat` data the files router reads. -/
structure FsStats where
  isDir : Bool
  size : Nat
  mtimeMs : Nat
deriving DecidableEq, Repr

/-- `getFileType` from the files router: directories are 'directory'; the
hidden-file branch (basename starting with '.') and the default branch both
yield 'file'. -/
def getFileType (stats : FsStats) (baseName : String) : FType :=
  if stats.isDir then FType.directory
  else if baseName.startsWith "." then FType.file
  else FType.file

/-- The object built by `getFileInfo`, extended by `getDirectoryContents` with
the `children` flag for directories. -/
structure FileInfo where
  name : String
  path : String
  type : FType
  size : Nat
  modified : Nat
  children : Option Bool
deriving DecidableEq, Repr

/-- One raw `fs.readdir` entry with its stats and, for directories, the
result of listing its children (`none` models a readdir failure). -/
structure RawEntry where
  name : String
  stats : FsStats
  childNames : Option (List String)
deriving DecidableEq, Repr

/-- The `\\` → `/` rewrite `path.replace(/\\/g, '/')` applies. -/
def repBackslash (l : List Char) : List Char :=
  l.map (fun ch => if ch = '\x5c' then '/' else ch)

/-- `getFileInfo(filePath)`: basename, workspace-relative path (the rendering
of `path.relative(workspacePath, filePath)` with the platform separator,
backslashes rewritten to forward slashes), type, size, mtime. `relComps` are
the workspace-relative segments of the entry. -/
def getFileInfo (sep : Char) (relComps : List String) (e : RawEntry) : FileInfo :=
  { name := e.name
    path := String.mk (repBackslash (renderRel sep relComps))
    type := getFileType e.stats e.name
    size := e.stats.size
    modified := e.stats.mtimeMs
    children := none }

/-- The directory branch of `getDirectoryContents`'s map: for directories set
`children` to whether the child listing is non-empty, `false` when the listing
failed; files keep no `children` field. -/
def withChildren (fi : FileInfo) (e : RawEntry) : FileInfo :=
  if fi.type = FType.directory then
    { fi with
      children := some (match e.childNames with
        | some cs => decide (0 < cs.length)
        | none => false) }
  else fi

/-- The sort comparator of `getDirectoryContents`: directories before files,
otherwise `a.name.localeCompare(b.name)`; the locale order is the parameter
`lc`. -/
def entryCompare (lc : String → String → Int) (a b : FileInfo) : Int :=
  if a.type = FType.directory ∧ b.type = FType.file then -1
  else if a.type = FType.file ∧ b.type = FType.directory then 1
  else lc a.name b.name

/-- `getDirectoryContents(dirPath)`: build a FileInfo (with children flag) for
every readdir entry, then sort with `entryCompare`. `dirRel` is the listed
directory's workspace-relative segment list. JS `Array.prototype.sort` with a
consistent comparator is modelled by a stable merge sort on the comparator's
nonpositive-result relation. -/
def getDirectoryContents (sep : Char) (dirRel : List String)
    (lc : String → String → Int) (entries : List RawEntry) : List FileInfo :=
  (entries.map (fun e => withChildren (getFileInfo sep (dirRel ++ [e.name]) e) e)).mergeSort
    (fun a b => decide (entryCompare lc a b ≤ 0))

theorem withChildren_name (fi : FileInfo) (e : RawEntry) :
    (withChildren fi e).name = fi.name := by
  unfold withChildren; split <;> rfl

theorem withChildren_path (fi : FileInfo) (e : RawEntry) :
    (withChildren fi e).path = fi.path := by
  unfold withChildren; split <;> rfl

theorem repBackslash_of_no_bs (l : List Char) (hl : '\x5c' ∉ l) :
    repBackslash l = l := by
  induction l with
  | nil => rfl
  | cons a t ih =>
    have ha : a ≠ '\x5c' := fun h => hl (by simp [h])
    simp only [repBackslash, List.map_cons] at *
    rw [if_neg ha, ih (fun h => hl (List.mem_cons_of_mem _ h))]

theorem renderRel_clean (sep : Char) (hsep : sep = '/' ∨ sep = '\x5c') :
    ∀ comps : List String, (∀ c ∈ comps, '\x5c' ∉ c.data) →
      repBackslash (renderRel sep comps) = renderRel '/' comps := by
  intro comps
  induction comps with
  | nil => intro _; rfl
  | cons c rest ih =>
    intro hcl
    cases rest with
    | nil =>
      show repBackslash c.data = c.data
      exact repBackslash_of_no_bs c.data (hcl c (by simp))
    | cons r rest2 =>
      have hc' : '\x5c' ∉ c.data := hcl c (by simp)
      have ih' := ih (fun x hx => hcl x (List.mem_cons_of_mem _ hx))
      have hsepc : (if sep = '\x5c' then '/' else sep) = '/' := by
        rcases hsep with h | h <;> simp [h]
      have hmap := repBackslash_of_no_bs c.data hc'
      show repBackslash (c.data ++ sep :: renderRel sep (r :: rest2))
        = c.data ++ '/' :: renderRel '/' (r :: rest2)
      simp only [repBackslash, List.map_append, List.map_cons] at hmap ih' ⊢
      rw [hmap, hsepc, ih']

end CodePilot

namespace CodePilot

/-- C10: assuming the locale comparison is total and transitive on
nonpositive results, the list returned by `getDirectoryContents` is a
permutation of the built entries in which every directory entry precedes
every file entry and entries of equal type are in locale order; and
(for a separator that is a forward slash or a backslash, with
backslash-free names) every returned entry carries the workspace-relative
path of its source entry joined with forward slashes. -/
theorem c10_directory_listing (sep : Char) (dirRel : List String)
    (lc : String → String → Int) (entries : List RawEntry)
    (htot : ∀ a b, lc a b ≤ 0 ∨ lc b a ≤ 0)
    (htrans : ∀ a b c, lc a b ≤ 0 → lc b c ≤ 0 → lc a c ≤ 0)
    (hsep : sep = '/' ∨ sep = '\x5c')
    (hdir : ∀ c ∈ dirRel, '\x5c' ∉ c.data)
    (hnames : ∀ e ∈ entries, '\x5c' ∉ e.name.data) :
    (getDirectoryContents sep dirRel lc entries).Pairwise
      (fun a b => (a.type = FType.directory ∧ b.type = FType.file) ∨
        (a.type = b.type ∧ lc a.name b.name ≤ 0)) ∧
    (getDirectoryContents sep dirRel lc entries).Perm
      (entries.map (fun e => withChildren (getFileInfo sep (dirRel ++ [e.name]) e) e)) ∧
    (∀ fi ∈ getDirectoryContents sep dirRel lc entries, ∃ e ∈ entries,
      fi.name = e.name ∧
      fi.path = String.mk (renderRel '/' (dirRel ++ [e.name]))) := by
  have ltrans : ∀ a b c : FileInfo, entryCompare lc a b ≤ 0 →
      entryCompare lc b c ≤ 0 → entryCompare lc a c ≤ 0 := by
    intro a b c hab hbc
    cases ha : a.type <;> cases hb : b.type <;> cases hc2 : c.type <;>
      simp only [entryCompare, ha, hb, hc2, and_self, and_true, true_and,
        and_false, false_and, if_true, if_false, reduceCtorEq, ite_true,
        ite_false] at hab hbc ⊢ <;>
      first
        | omega
        | exact htrans _ _ _ hab hbc
  have ltot : ∀ a b : FileInfo,
      entryCompare lc a b ≤ 0 ∨ entryCompare lc b a ≤ 0 := by
    intro a b
    cases ha : a.type <;> cases hb : b.type <;>
      simp only [entryCompare, ha, hb, and_self, and_true, true_and,
        and_false, false_and, if_true, if_false, reduceCtorEq, ite_true,
        ite_false] <;>
      first
        | omega
        | exact htot _ _
  have btrans : ∀ a b c : FileInfo,
      decide (entryCompare lc a b ≤ 0) = true →
      decide (entryCompare lc b c ≤ 0) = true →
      decide (entryCompare lc a c ≤ 0) = true := by
    intro a b c h1 h2
    exact decide_eq_true (ltrans a b c (of_decide_eq_true h1) (of_decide_eq_true h2))
  have btot : ∀ a b : FileInfo,
      (decide (entryCompare lc a b ≤ 0) || decide (entryCompare lc b a ≤ 0)) = true := by
    intro a b
    rcases ltot a b with h | h
    · simp [decide_eq_true h]
    · simp [decide_eq_true h]
  have hsorted := List.sorted_mergeSort btrans btot
    (entries.map (fun e => withChildren (getFileInfo sep (dirRel ++ [e.name]) e) e))
  have hperm := List.mergeSort_perm
    (entries.map (fun e => withChildren (getFileInfo sep (dirRel ++ [e.name]) e) e))
    (fun a b => decide (entryCompare lc a b ≤ 0))
  refine ⟨?_, hperm, ?_⟩
  · refine List.Pairwise.imp ?_ hsorted
    intro a b hab
    have hP : entryCompare lc a b ≤ 0 := of_decide_eq_true hab
    cases ha : a.type <;> cases hb : b.type
    · right
      refine ⟨rfl, ?_⟩
      simpa [entryCompare, ha, hb] using hP
    · left; exact ⟨rfl, rfl⟩
    · exfalso
      rw [entryCompare, if_neg (by simp [ha]), if_pos ⟨ha, hb⟩] at hP
      omega
    · right
      refine ⟨rfl, ?_⟩
      simpa [entryCompare, ha, hb] using hP
  · intro fi hfi
    have hmem : fi ∈ entries.map
        (fun e => withChildren (getFileInfo sep (dirRel ++ [e.name]) e) e) :=
      hperm.mem_iff.mp hfi
    rcases List.mem_map.mp hmem with ⟨e, he, rfl⟩
    refine ⟨e, he, withChildren_name _ _, ?_⟩
    rw [withChildren_path]
    show String.mk (repBackslash (renderRel sep (dirRel ++ [e.name])))
      = String.mk (renderRel '/' (dirRel ++ [e.name]))
    congr 1
    apply renderRel_clean sep hsep
    intro c hc
    rcases List.mem_append.mp hc with h | h
    · exact hdir c h
    · rcases List.mem_singleton.mp h with rfl
      exact hnames e he

/-- A concrete locale comparison for the witness: strictly below on `≤`,
otherwise above. -/
def lcDemo (a b : String) : Int :=
  if a ≤ b then -1 else 1

/-- Concrete readdir entries for the witness: a file `b.txt` and a directory
`a` with one child. -/
def entriesDemo : List RawEntry :=
  [⟨"b.txt", ⟨false, 3, 11⟩, none⟩, ⟨"a", ⟨true, 0, 12⟩, some ["x"]⟩]

/-- Witness for C10: the hypotheses hold for `lcDemo` and the concrete
segment lists, and at the demo entries the listing is pairwise ordered with
the directory before the file. -/
theorem c10_directory_listing_witness :
    (∀ c ∈ ["sub"], '\x5c' ∉ c.data) ∧
    (∀ e ∈ entriesDemo, '\x5c' ∉ e.name.data) ∧
    (getDirectoryContents '/' ["sub"] lcDemo entriesDemo).Pairwise
      (fun a b => (a.type = FType.directory ∧ b.type = FType.file) ∨
        (a.type = b.type ∧ lcDemo a.name b.name ≤ 0)) := by
  have htot : ∀ a b, lcDemo a b ≤ 0 ∨ lcDemo b a ≤ 0 := by
    intro a b
    rcases le_total a b with h | h
    · left; simp [lcDemo, h]
    · right; simp [lcDemo, h]
  have htrans : ∀ a b c, lcDemo a b ≤ 0 → lcDemo b c ≤ 0 → lcDemo a c ≤ 0 := by
    intro a b c h1 h2
    by_cases hab : a ≤ b
    · by_cases hbc : b ≤ c
      · simp [lcDemo, le_trans hab hbc]
      · simp [lcDemo, hbc] at h2
    · simp [lcDemo, hab] at h1
  have h := c10_directory_listing '/' ["sub"] lcDemo entriesDemo htot htrans
    (Or.inl rfl) (by decide) (by decide)
  exact ⟨by decide, by decide, h.1⟩

end CodePilot
